import Mathlib

/-!
Shallow embedding of `src/packages/mdx/src/utils/build-mdx.ts` (the
`buildMDX` entry point, its module-level compiler cache, and the
`remarkInclude` transform), together with theorems checking the
specification's claims about it.

Modelling conventions:
* compiler handles (`createProcessor` results) are natural numbers drawn
  from a monotone counter `nextId`; each constructor invocation yields a
  fresh handle and bumps the counter, so the counter doubles as a
  constructor call-count probe and handle identity models object identity;
* the module-level `Map` is an association list with first-match lookup
  and in-place replacement on `set`, as for a JS `Map`;
* external collaborators (the mdast parser, `gray-matter`, the
  filesystem, `node:path`) are either parameters of the pipeline
  environment or small explicit models, noted at each definition;
* promise rejection / thrown exceptions are modelled with `Except`.
-/

namespace FumaMDX

/-- The `format` option of the processor: `'md' | 'mdx'`. -/
inductive Fmt where
  | md
  | mdx
deriving DecidableEq, Repr

/-- String form of a format, as used in the cache key. -/
def fmtStr : Fmt → String
  | .md => "md"
  | .mdx => "mdx"

/-- Executable model of `String.endsWith` (JS `filePath.endsWith('.mdx')`)
via character lists, so that it reduces in the kernel. -/
def listIsTail : List Char → List Char → Bool
  | _, [] => true
  | [], _ :: _ => false
  | c :: cs, d :: ds => c = d && listIsTail cs ds

/-- `strEndsWith s suf` models JS `s.endsWith(suf)`. -/
def strEndsWith (s suf : String) : Bool :=
  listIsTail s.toList.reverse suf.toList.reverse

/-- Embeds lines 99-103 of `buildMDX`:
`let format = options.format; if (!format && filePath) format =
filePath.endsWith('.mdx') ? 'mdx' : 'md'; format ??= 'mdx';`.
Note a supplied empty-string `filePath` is falsy in JS, so it takes the
default branch. -/
def resolveFormat (format : Option Fmt) (filePath : Option String) : Fmt :=
  match format with
  | some f => f
  | none =>
    match filePath with
    | some fp =>
      if fp = "" then .mdx
      else if strEndsWith fp ".mdx" then .mdx else .md
    | none => .mdx

/-- Embeds `cacheKey(group, format)`: `group + ":" + format`. -/
def cacheKey (group format : String) : String :=
  group ++ ":" ++ format

/-- One value of the module-level `cache` map:
`{ processor: Processor; configHash: string }`, with the processor handle
modelled as a numeric identity. -/
structure CacheEntry where
  processor : Nat
  configHash : String
deriving DecidableEq, Repr

/-- The mutable module state: the `cache` map plus the constructor
call-count probe `nextId` (the identity the next `createProcessor`
invocation would return). -/
structure BuildState where
  cache : List (String × CacheEntry)
  nextId : Nat
deriving DecidableEq, Repr

/-- `cache.get key` on the association-list model of the JS `Map`. -/
def getEntry (k : String) : List (String × CacheEntry) → Option CacheEntry
  | [] => none
  | (k', e) :: rest => if k' = k then some e else getEntry k rest

/-- `cache.set key e` on the association-list model of the JS `Map`. -/
def setEntry (k : String) (e : CacheEntry) :
    List (String × CacheEntry) → List (String × CacheEntry)
  | [] => [(k, e)]
  | (k', e') :: rest =>
    if k' = k then (k, e) :: rest else (k', e') :: setEntry k e rest

/-- Embeds lines 105-124 of `buildMDX`: look up `key`; if there is no
entry or its `configHash` differs, invoke `createProcessor` (which may
throw, modelled by `ctorOk = false`) and store the fresh handle with the
new hash; otherwise reuse the stored handle with the state untouched. -/
def buildProcessor (ctorOk : Bool) (key configHash : String) (st : BuildState) :
    Except Unit (Nat × BuildState) :=
  match getEntry key st.cache with
  | some e =>
    if e.configHash = configHash then .ok (e.processor, st)
    else
      if ctorOk then
        .ok (st.nextId,
          ⟨setEntry key ⟨st.nextId, configHash⟩ st.cache, st.nextId + 1⟩)
      else .error ()
  | none =>
    if ctorOk then
      .ok (st.nextId,
        ⟨setEntry key ⟨st.nextId, configHash⟩ st.cache, st.nextId + 1⟩)
    else .error ()

theorem getEntry_setEntry_same (k : String) (e : CacheEntry)
    (c : List (String × CacheEntry)) : getEntry k (setEntry k e c) = some e := by
  induction c with
  | nil => simp [getEntry, setEntry]
  | cons p rest ih =>
    obtain ⟨k', e'⟩ := p
    by_cases h : k' = k
    · simp [getEntry, setEntry, h]
    · simp [getEntry, setEntry, h, ih]

theorem getEntry_setEntry_ne (k k' : String) (e : CacheEntry)
    (c : List (String × CacheEntry)) (h : k' ≠ k) :
    getEntry k (setEntry k' e c) = getEntry k c := by
  induction c with
  | nil => simp [getEntry, setEntry, h]
  | cons p rest ih =>
    obtain ⟨k'', e''⟩ := p
    by_cases h2 : k'' = k'
    · subst h2
      simp [getEntry, setEntry, h]
    · by_cases h3 : k'' = k
      · subst h3
        simp [getEntry, setEntry, h2, Ne.symm h]
      · simp [getEntry, setEntry, h2, h3, ih]

/-- Shallow model of an mdast node, as a bag of the JS-object fields the
transform reads or writes. A field of `Option` type with value `none`
models the property being absent on the JS object (relevant for
`Object.assign`); `name`'s inner `Option` models the `string | null`
name of an `mdxJsxFlowElement`; `attributes` is kept opaque as a count
and `position` as an opaque stamp, since the transform only copies them. -/
inductive MNode : Type where
  | node (typ : String) (name : Option (Option String)) (value : Option String)
      (attributes : Option Nat) (position : Option Nat) (children : List MNode)

/-- The `type` field. -/
def MNode.typ : MNode → String
  | .node t _ _ _ _ _ => t

/-- The `name` field (`none` = property absent). -/
def MNode.name : MNode → Option (Option String)
  | .node _ n _ _ _ _ => n

/-- The `value` field (`none` = property absent). -/
def MNode.value : MNode → Option String
  | .node _ _ v _ _ _ => v

/-- The `attributes` field (`none` = property absent). -/
def MNode.attributes : MNode → Option Nat
  | .node _ _ _ a _ _ => a

/-- The `position` field (`none` = property absent). -/
def MNode.position : MNode → Option Nat
  | .node _ _ _ _ p _ => p

/-- The `children` field (a node without children carries `[]`). -/
def MNode.children : MNode → List MNode
  | .node _ _ _ _ _ c => c

/-- The value returned by `this.parse(...)`: an mdast `Root`, which owns
exactly the fields `type: 'root'`, `children` and (optionally)
`position` — never `name`, `value` or `attributes`. -/
structure ParsedRoot where
  children : List MNode
  position : Option Nat

/-- The `Root` returned by `this.parse`, as an `MNode`. -/
def rootNode (r : ParsedRoot) : MNode :=
  .node "root" none none none r.position r.children

/-- Embeds `Object.assign(node, parsed)` at line 73, where `parsed` is
the `Root` returned by `this.parse`: every own property of the root
(`type`, `children`, and `position` when present) overwrites the
node's; properties the root does not own (`name`, `value`,
`attributes`) keep the node's values. -/
def objAssignRoot (n : MNode) (r : ParsedRoot) : MNode :=
  .node "root" n.name n.value n.attributes (r.position <|> n.position) r.children

/-- Minimal executable model of POSIX `path.dirname` from `node:path`
(an external collaborator), adequate for slash-separated paths without
trailing slashes: everything before the last `'/'`, with `"."` when
there is no slash and `"/"` when the only slash is leading. -/
def pathDirname (p : String) : String :=
  match p.toList.reverse.dropWhile (fun c => c ≠ '/') with
  | [] => "."
  | [_] => "/"
  | _ :: tl => String.mk tl.reverse

/-- Does the path start with `'/'`? -/
def isAbsolutePath (s : String) : Bool :=
  s.toList.head? = some '/'

/-- Minimal executable model of POSIX `path.resolve(base, spec)` from
`node:path` (an external collaborator), adequate for specifiers without
`.`/`..` segments: an absolute specifier is returned unchanged,
otherwise it is joined onto the base directory. -/
def pathResolve (base spec : String) : String :=
  if isAbsolutePath spec then spec else base ++ "/" ++ spec

/-- The external collaborators the pipeline calls into:
`parse` is the processor's parse capability (`this.parse`, fallible for
the MDX grammar), `matterContent` models `matter(content).content`
(gray-matter front-matter stripping), and `fsys` models
`fs.readFile` (`none` = the read rejects). -/
structure PipelineEnv where
  parse : String → Except String ParsedRoot
  matterContent : String → String
  fsys : String → Option String

/-- A failure of the `remarkInclude` transform step:
`noPath` is the `TypeError` thrown by `path.dirname(undefined)` when the
file has no path, `readError` a rejected `fs.readFile`, `parseError` a
throwing `this.parse` on included content. -/
inductive TErr where
  | noPath
  | readError (target : String)
  | parseError (msg : String)
deriving DecidableEq, Repr

/-- Embeds the `remarkInclude` transformer body (lines 54-82) over a list
of sibling nodes, sequentialising the `visit` walk and the awaited
resolution queue in traversal order:

* a `mdxJsxFlowElement` named `include` whose first child is a `text`
  node resolves: `path.resolve(path.dirname(file.path), specifier)`
  (throwing `noPath` when `file.path` is undefined), `fs.readFile`,
  `matter(...).content`, `this.parse`, then `Object.assign` onto the
  node, recording the target for `addDependency` when `file.data._compiler`
  is present; the visitor returns `'skip'`, so its children are not walked;
* a `mdxJsxFlowElement` named `include` whose first child is missing or
  not a `text` node takes the early `return` (the visitor yields
  `undefined`), so the walk does descend into its children;
* any other `mdxJsxFlowElement` returns `'skip'`: left unchanged,
  children not walked;
* every other node is left unchanged and its children are walked. -/
def runIncl (env : PipelineEnv) (base : Option String) (hc : Bool) :
    List MNode → Except TErr (List MNode × List String)
  | [] => .ok ([], [])
  | MNode.node t n v a p cs :: rest =>
    if t = "mdxJsxFlowElement" then
      if n = some (some "include") then
        match cs.head? with
        | some child =>
          if child.typ = "text" then
            match base with
            | none => .error .noPath
            | some fp =>
              let target := pathResolve (pathDirname fp) (child.value.getD "")
              match env.fsys target with
              | none => .error (.readError target)
              | some content =>
                match env.parse (env.matterContent content) with
                | .error m => .error (.parseError m)
                | .ok r =>
                  match runIncl env base hc rest with
                  | .error e => .error e
                  | .ok (rest', d2) =>
                    .ok (objAssignRoot (MNode.node t n v a p cs) r :: rest',
                      (if hc then [target] else []) ++ d2)
          else
            match runIncl env base hc cs with
            | .error e => .error e
            | .ok (cs', d1) =>
              match runIncl env base hc rest with
              | .error e => .error e
              | .ok (rest', d2) =>
                .ok (MNode.node t n v a p cs' :: rest', d1 ++ d2)
        | none =>
          match runIncl env base hc cs with
          | .error e => .error e
          | .ok (cs', d1) =>
            match runIncl env base hc rest with
            | .error e => .error e
            | .ok (rest', d2) =>
              .ok (MNode.node t n v a p cs' :: rest', d1 ++ d2)
      else
        match runIncl env base hc rest with
        | .error e => .error e
        | .ok (rest', d2) => .ok (MNode.node t n v a p cs :: rest', d2)
    else
      match runIncl env base hc cs with
      | .error e => .error e
      | .ok (cs', d1) =>
        match runIncl env base hc rest with
        | .error e => .error e
        | .ok (rest', d2) =>
          .ok (MNode.node t n v a p cs' :: rest', d1 ++ d2)
termination_by l => sizeOf l

/-- The action of one `visit` step on a single node (the head of a
sibling list), factored out of `runIncl`: it performs the node's own
resolution or descends into its children, but does not touch the node's
siblings. `runIncl` is exactly this step sequenced over the list
(`runIncl_cons`). -/
def headStep (env : PipelineEnv) (base : Option String) (hc : Bool) :
    MNode → Except TErr (MNode × List String)
  | MNode.node t n v a p cs =>
    if t = "mdxJsxFlowElement" then
      if n = some (some "include") then
        match cs.head? with
        | some child =>
          if child.typ = "text" then
            match base with
            | none => .error .noPath
            | some fp =>
              let target := pathResolve (pathDirname fp) (child.value.getD "")
              match env.fsys target with
              | none => .error (.readError target)
              | some content =>
                match env.parse (env.matterContent content) with
                | .error m => .error (.parseError m)
                | .ok r =>
                  .ok (objAssignRoot (MNode.node t n v a p cs) r,
                    if hc then [target] else [])
          else
            match runIncl env base hc cs with
            | .error e => .error e
            | .ok (cs', d1) => .ok (MNode.node t n v a p cs', d1)
        | none =>
          match runIncl env base hc cs with
          | .error e => .error e
          | .ok (cs', d1) => .ok (MNode.node t n v a p cs', d1)
      else .ok (MNode.node t n v a p cs, [])
    else
      match runIncl env base hc cs with
      | .error e => .error e
      | .ok (cs', d1) => .ok (MNode.node t n v a p cs', d1)

theorem runIncl_nil (env : PipelineEnv) (base : Option String) (hc : Bool) :
    runIncl env base hc [] = .ok ([], []) := by
  simp [runIncl]

theorem runIncl_cons (env : PipelineEnv) (base : Option String) (hc : Bool)
    (m : MNode) (rest : List MNode) :
    runIncl env base hc (m :: rest) =
      match headStep env base hc m with
      | .error e => .error e
      | .ok (m', d1) =>
        match runIncl env base hc rest with
        | .error e => .error e
        | .ok (rest', d2) => .ok (m' :: rest', d1 ++ d2) := by
  cases m with
  | node t n v a p cs =>
    rw [runIncl]
    simp only [headStep]
    repeat' split
    all_goals first
      | rfl
      | simp_all

/-- Structural induction over sibling lists of the nested `MNode` tree:
the step may use the hypothesis both for the head's children and for the
tail. -/
theorem mnodeListInd (P : List MNode → Prop) (h0 : P [])
    (h1 : ∀ t n v a p cs rest, P cs → P rest →
      P (MNode.node t n v a p cs :: rest)) :
    ∀ l, P l := by
  have key : ∀ k l, sizeOf l ≤ k → P l := by
    intro k
    induction k with
    | zero =>
      intro l hl
      cases l with
      | nil => exact h0
      | cons m rest => simp at hl
    | succ k ih =>
      intro l hl
      cases l with
      | nil => exact h0
      | cons m rest =>
        cases m with
        | node t n v a p cs =>
          refine h1 t n v a p cs rest (ih cs ?_) (ih rest ?_) <;>
            · simp at hl
              omega
  exact fun l => key (sizeOf l) l le_rfl

/-- The specifiers of the include directives that the `visit` walk of
`remarkInclude` actually reaches and queues for resolution, in traversal
order. This is the projection of `runIncl`'s walk that forgets
resolution itself: same node cases, same skip/descend decisions. -/
def visitedSpecs : List MNode → List String
  | [] => []
  | MNode.node t n _ _ _ cs :: rest =>
    if t = "mdxJsxFlowElement" then
      if n = some (some "include") then
        (match cs.head? with
          | some child =>
            if child.typ = "text" then [child.value.getD ""]
            else visitedSpecs cs
          | none => visitedSpecs cs) ++ visitedSpecs rest
      else visitedSpecs rest
    else visitedSpecs cs ++ visitedSpecs rest
termination_by l => sizeOf l

/-- The value a successful `processor.process` call resolves with, as far
as this core observes it: which processor handle ran, the syntax tree
after the `remarkInclude` transform, and the sequence of
`addDependency` notifications. -/
structure Artifact where
  procId : Nat
  tree : MNode
  deps : List String

/-- A rejection of the promise `buildMDX` returns: `ctorError` models a
throwing `createProcessor`, `hostParseError` a parse failure of the host
source, `transformError` a failure of the `remarkInclude` step. -/
inductive BErr where
  | ctorError
  | hostParseError (msg : String)
  | transformError (e : TErr)

/-- The `MDXOptions` fields the modelled core consumes: `format`,
`filePath`, and whether `options._compiler` is present (`hasCompiler`).
`frontmatter`, `data` and the remaining processor options are forwarded
opaquely by the source and play no role in the modelled control flow. -/
structure MDXOpts where
  format : Option Fmt := none
  filePath : Option String := none
  hasCompiler : Bool := false
deriving DecidableEq, Repr

/-- The cache key `buildMDX` computes for a call: `cacheKey(group, format)`
with the format resolved per lines 99-105. -/
def mdxKey (group : String) (opts : MDXOpts) : String :=
  cacheKey group (fmtStr (resolveFormat opts.format opts.filePath))

/-- Embeds `cached.processor.process({ value: source, path: filePath,
data: { ...data, frontmatter, _compiler } })`: parse the host source with
the processor's parser, run the `remarkInclude` transform over the
resulting root with `file.path = filePath` and the `_compiler`
capability from the options, and resolve with the artifact. -/
def processDoc (env : PipelineEnv) (procId : Nat) (source : String)
    (filePath : Option String) (hc : Bool) : Except BErr Artifact :=
  match env.parse source with
  | .error e => .error (.hostParseError e)
  | .ok r =>
    match runIncl env filePath hc [rootNode r] with
    | .error e => .error (.transformError e)
    | .ok (ts, deps) => .ok ⟨procId, ts.headD (rootNode r), deps⟩

/-- Embeds the exported `buildMDX(group, configHash, source, options)`:
normalize the format, get or build the cached processor (`ctorOk = false`
models a throwing `createProcessor`), then run the full process pipeline.
Returns the promise outcome together with the module state after the
call. -/
def buildMDX (env : PipelineEnv) (ctorOk : Bool) (group configHash source : String)
    (opts : MDXOpts) (st : BuildState) : Except BErr Artifact × BuildState :=
  match buildProcessor ctorOk (mdxKey group opts) configHash st with
  | .error _ => (.error .ctorError, st)
  | .ok (p, st') =>
    (processDoc env p source opts.filePath opts.hasCompiler, st')

/-- One `buildMDX` call's arguments, for reasoning about call sequences. -/
structure Req where
  ctorOk : Bool
  group : String
  configHash : String
  source : String
  opts : MDXOpts
deriving DecidableEq, Repr

/-- The cache key of a call. -/
def reqKey (r : Req) : String := mdxKey r.group r.opts

/-- The module state after one call. -/
def stepBuild (env : PipelineEnv) (st : BuildState) (r : Req) : BuildState :=
  (buildMDX env r.ctorOk r.group r.configHash r.source r.opts st).2

/-- The module state after a sequence of calls. -/
def runTrace (env : PipelineEnv) (rs : List Req) (st : BuildState) : BuildState :=
  rs.foldl (stepBuild env) st

/-- The processor handle a call would run `process` on (`none` when the
constructor throws on that call). -/
def procUsed (r : Req) (st : BuildState) : Option Nat :=
  match buildProcessor r.ctorOk (reqKey r) r.configHash st with
  | .ok (p, _) => some p
  | .error _ => none

/-- A handle that has been discarded: it is strictly below the
constructor counter (so no future construction can coincide with it) and
held by no cache entry. -/
def DeadProc (p : Nat) (st : BuildState) : Prop :=
  p < st.nextId ∧ ∀ k e, getEntry k st.cache = some e → e.processor ≠ p

/-- Sanity invariant of the module state, holding from the empty state
onwards: every cached handle came from the counter (is below `nextId`)
and distinct keys hold distinct handles. -/
def GoodState (st : BuildState) : Prop :=
  (∀ k e, getEntry k st.cache = some e → e.processor < st.nextId) ∧
  (∀ k1 k2 e1 e2, getEntry k1 st.cache = some e1 →
    getEntry k2 st.cache = some e2 → e1.processor = e2.processor → k1 = k2)

theorem buildProcessor_hit (ctorOk : Bool) (key h : String) (st : BuildState)
    (e : CacheEntry) (he : getEntry key st.cache = some e)
    (hh : e.configHash = h) :
    buildProcessor ctorOk key h st = .ok (e.processor, st) := by
  simp [buildProcessor, he, hh]

theorem buildProcessor_build (key h : String) (st : BuildState)
    (hmiss : ∀ e, getEntry key st.cache = some e → e.configHash ≠ h) :
    buildProcessor true key h st =
      .ok (st.nextId, ⟨setEntry key ⟨st.nextId, h⟩ st.cache, st.nextId + 1⟩) := by
  unfold buildProcessor
  cases he : getEntry key st.cache with
  | none => simp
  | some e => simp [hmiss e he]

theorem buildProcessor_ctorFail (key h : String) (st : BuildState)
    (hmiss : ∀ e, getEntry key st.cache = some e → e.configHash ≠ h) :
    buildProcessor false key h st = .error () := by
  unfold buildProcessor
  cases he : getEntry key st.cache with
  | none => simp
  | some e => simp [hmiss e he]

theorem buildMDX_of_hit (env : PipelineEnv) (ctorOk : Bool)
    (g h src : String) (o : MDXOpts) (st : BuildState) (e : CacheEntry)
    (he : getEntry (mdxKey g o) st.cache = some e) (hh : e.configHash = h) :
    buildMDX env ctorOk g h src o st =
      (processDoc env e.processor src o.filePath o.hasCompiler, st) := by
  simp [buildMDX, buildProcessor_hit ctorOk _ h st e he hh]

theorem buildProcessor_ok_cases (ok : Bool) (key h : String) (st : BuildState)
    (p : Nat) (st' : BuildState)
    (hb : buildProcessor ok key h st = .ok (p, st')) :
    (∃ e, getEntry key st.cache = some e ∧ e.configHash = h ∧
      e.processor = p ∧ st' = st) ∨
    ((∀ e, getEntry key st.cache = some e → e.configHash ≠ h) ∧ p = st.nextId ∧
      st' = ⟨setEntry key ⟨st.nextId, h⟩ st.cache, st.nextId + 1⟩) := by
  unfold buildProcessor at hb
  split at hb
  · rename_i e he
    split at hb
    · rename_i hh
      cases hb
      exact Or.inl ⟨e, he, hh, rfl, rfl⟩
    · rename_i hh
      split at hb
      · cases hb
        right
        refine ⟨?_, rfl, rfl⟩
        intro e' h2
        rw [he] at h2
        cases h2
        exact hh
      · cases hb
  · rename_i he
    split at hb
    · cases hb
      right
      refine ⟨?_, rfl, rfl⟩
      intro e' h2
      rw [he] at h2
      cases h2
    · cases hb

theorem stepBuild_state (env : PipelineEnv) (st : BuildState) (r : Req) :
    stepBuild env st r =
      (match buildProcessor r.ctorOk (reqKey r) r.configHash st with
        | .error _ => st
        | .ok (_, st') => st') := by
  unfold stepBuild buildMDX reqKey
  cases buildProcessor r.ctorOk (mdxKey r.group r.opts) r.configHash st with
  | error e => rfl
  | ok pr => obtain ⟨p, st'⟩ := pr; rfl

theorem stepBuild_cases (env : PipelineEnv) (st : BuildState) (r : Req) :
    stepBuild env st r = st ∨
      ((∀ e, getEntry (reqKey r) st.cache = some e → e.configHash ≠ r.configHash) ∧
        stepBuild env st r =
          ⟨setEntry (reqKey r) ⟨st.nextId, r.configHash⟩ st.cache, st.nextId + 1⟩) := by
  rw [stepBuild_state]
  cases hb : buildProcessor r.ctorOk (reqKey r) r.configHash st with
  | error e => left; rfl
  | ok pr =>
    obtain ⟨p, st'⟩ := pr
    rcases buildProcessor_ok_cases r.ctorOk (reqKey r) r.configHash st p st' hb with
      ⟨e, _, _, _, hst⟩ | ⟨hmiss, _, hst⟩
    · left; exact hst
    · right; exact ⟨hmiss, hst⟩

theorem entry_preserved_step (env : PipelineEnv) (st : BuildState) (r : Req)
    (key h : String) (p : Nat)
    (he : getEntry key st.cache = some ⟨p, h⟩)
    (hr : reqKey r ≠ key ∨ r.configHash = h) :
    getEntry key (stepBuild env st r).cache = some ⟨p, h⟩ := by
  rcases stepBuild_cases env st r with heq | ⟨hmiss, heq⟩
  · rw [heq]; exact he
  · rw [heq]
    by_cases hk : reqKey r = key
    · exfalso
      rcases hr with h1 | h1
      · exact h1 hk
      · exact hmiss ⟨p, h⟩ (hk.symm ▸ he) h1.symm
    · rw [getEntry_setEntry_ne key (reqKey r) _ st.cache hk]
      exact he

theorem entry_preserved_trace (env : PipelineEnv) (trace : List Req)
    (st : BuildState) (key h : String) (p : Nat)
    (he : getEntry key st.cache = some ⟨p, h⟩)
    (htr : ∀ r ∈ trace, reqKey r ≠ key ∨ r.configHash = h) :
    getEntry key (runTrace env trace st).cache = some ⟨p, h⟩ := by
  induction trace generalizing st with
  | nil => exact he
  | cons r rs ih =>
    have h1 := entry_preserved_step env st r key h p he (htr r (by simp))
    exact ih (stepBuild env st r) h1 (fun r' hr' => htr r' (by simp [hr']))

theorem procUsed_entry (env : PipelineEnv) (r : Req) (st : BuildState) (p : Nat)
    (hp : procUsed r st = some p) :
    getEntry (reqKey r) (stepBuild env st r).cache = some ⟨p, r.configHash⟩ := by
  rw [stepBuild_state]
  unfold procUsed at hp
  revert hp
  cases hb : buildProcessor r.ctorOk (reqKey r) r.configHash st with
  | error e => intro hp; cases hp
  | ok pr =>
    obtain ⟨p', st'⟩ := pr
    intro hp
    simp only [Option.some.injEq] at hp
    subst hp
    rcases buildProcessor_ok_cases r.ctorOk (reqKey r) r.configHash st p' st' hb with
      ⟨e, he, hh, hpe, hst⟩ | ⟨_, hpe, hst⟩
    · subst hst
      rw [he, ← hh, ← hpe]
    · subst hst
      subst hpe
      exact getEntry_setEntry_same _ _ _

theorem dead_step (env : PipelineEnv) (st : BuildState) (r : Req) (p : Nat)
    (hd : DeadProc p st) : DeadProc p (stepBuild env st r) := by
  obtain ⟨hlt, hmem⟩ := hd
  rcases stepBuild_cases env st r with heq | ⟨_, heq⟩
  · rw [heq]; exact ⟨hlt, hmem⟩
  · rw [heq]
    refine ⟨Nat.lt_succ_of_lt hlt, ?_⟩
    intro k e he
    by_cases hk : reqKey r = k
    · subst hk
      rw [getEntry_setEntry_same] at he
      cases he
      show st.nextId ≠ p
      omega
    · rw [getEntry_setEntry_ne _ _ _ _ hk] at he
      exact hmem k e he

theorem dead_trace (env : PipelineEnv) (trace : List Req) (st : BuildState)
    (p : Nat) (hd : DeadProc p st) : DeadProc p (runTrace env trace st) := by
  induction trace generalizing st with
  | nil => exact hd
  | cons r rs ih => exact ih (stepBuild env st r) (dead_step env st r p hd)

theorem procUsed_ne_of_dead (r : Req) (st : BuildState) (p : Nat)
    (hd : DeadProc p st) : procUsed r st ≠ some p := by
  obtain ⟨hlt, hmem⟩ := hd
  unfold procUsed
  cases hb : buildProcessor r.ctorOk (reqKey r) r.configHash st with
  | error e => simp
  | ok pr =>
    obtain ⟨p', st'⟩ := pr
    show some p' ≠ some p
    intro hpp
    cases hpp
    rcases buildProcessor_ok_cases r.ctorOk (reqKey r) r.configHash st p st' hb with
      ⟨e, he, _, hpe, _⟩ | ⟨_, hpe, _⟩
    · exact hmem _ e he hpe
    · omega

/-- A concrete environment for witnesses and counterexamples: the parser
returns an empty root, front-matter stripping is the identity, and every
file read rejects. -/
def cexEnv0 : PipelineEnv :=
  ⟨fun _ => .ok ⟨[], none⟩, id, fun _ => none⟩

/-- C1: two `buildMDX` calls with the same cache key (group + resolved
format) and the same fingerprint, with no intervening call for that key
under a different fingerprint, share the processor: the second call runs
`process` on the exact handle `p` used by the first call, and its module
state is untouched (in particular `nextId`, the constructor call
counter, does not move: `createProcessor` is not invoked again). -/
theorem buildMDX_second_call_reuses_instance
    (env1 env2 envT : PipelineEnv) (r1 r2 : Req) (st : BuildState)
    (trace : List Req) (p : Nat)
    (hk : reqKey r2 = reqKey r1) (hh : r2.configHash = r1.configHash)
    (h1 : procUsed r1 st = some p)
    (htr : ∀ r ∈ trace, reqKey r ≠ reqKey r1 ∨ r.configHash = r1.configHash) :
    procUsed r2 (runTrace envT trace (stepBuild env1 st r1)) = some p ∧
    buildMDX env2 r2.ctorOk r2.group r2.configHash r2.source r2.opts
        (runTrace envT trace (stepBuild env1 st r1)) =
      (processDoc env2 p r2.source r2.opts.filePath r2.opts.hasCompiler,
        runTrace envT trace (stepBuild env1 st r1)) := by
  have he1 := procUsed_entry env1 r1 st p h1
  have he2 := entry_preserved_trace envT trace (stepBuild env1 st r1)
    (reqKey r1) r1.configHash p he1 htr
  have hhit : getEntry (reqKey r2)
      (runTrace envT trace (stepBuild env1 st r1)).cache =
      some ⟨p, r1.configHash⟩ := by rw [hk]; exact he2
  constructor
  · unfold procUsed
    rw [buildProcessor_hit r2.ctorOk (reqKey r2) r2.configHash _
      ⟨p, r1.configHash⟩ hhit hh.symm]
  · exact buildMDX_of_hit env2 r2.ctorOk r2.group r2.configHash r2.source
      r2.opts _ ⟨p, r1.configHash⟩ hhit hh.symm

/-- Witness for C1 at concrete inputs: a cold first call for group `g`
and fingerprint `a` constructs handle `0`; after an intervening call for
a different group, a second call with the same key and fingerprint still
uses handle `0`. -/
theorem buildMDX_second_call_reuses_instance_witness :
    procUsed ⟨true, "g", "a", "s2", {}⟩
      (runTrace cexEnv0 [⟨true, "other", "z", "", {}⟩]
        (stepBuild cexEnv0 ⟨[], 0⟩ ⟨true, "g", "a", "s1", {}⟩)) = some 0 :=
  (buildMDX_second_call_reuses_instance cexEnv0 cexEnv0 cexEnv0
    ⟨true, "g", "a", "s1", {}⟩ ⟨true, "g", "a", "s2", {}⟩ ⟨[], 0⟩
    [⟨true, "other", "z", "", {}⟩] 0 rfl rfl rfl (by decide)).1

/-- Counterexample to C2 as stated: with fingerprints alternating
`a`, `b`, `a` for one key, the constructor runs three times — the third
call constructs a fresh handle (`2`) for fingerprint `a` even though
fingerprint `a` already caused a construction (handle `0`) on the first
call, so the constructor is invoked twice for the same (key, fingerprint)
pair, contradicting `at most once per fingerprint value across the
sequence of buildMDX calls`. -/
theorem buildMDX_refingerprint_rebuild_cex :
    (runTrace cexEnv0 [⟨true, "g", "a", "", {}⟩, ⟨true, "g", "b", "", {}⟩,
      ⟨true, "g", "a", "", {}⟩] ⟨[], 0⟩).nextId = 3 ∧
    procUsed ⟨true, "g", "a", "", {}⟩
      (runTrace cexEnv0 [⟨true, "g", "a", "", {}⟩, ⟨true, "g", "b", "", {}⟩]
        ⟨[], 0⟩) = some 2 := by
  constructor <;> rfl

/-- C2 as amended: for a fixed key, a call whose fingerprint matches the
stored entry performs no construction (state unchanged); a call whose
fingerprint misses (no entry, or a differing stored fingerprint) performs
exactly one construction, storing the fresh handle; and a handle evicted
by a fingerprint change is dead from then on — it stays out of the cache
along any sequence of further calls, and no later call can use it. (The
original claim's `at most once per fingerprint value across the sequence`
fails when fingerprints alternate, see the counterexample.) -/
theorem buildMDX_fingerprint_change_rebuilds :
    (∀ env ok g h src o st e, getEntry (mdxKey g o) st.cache = some e →
      e.configHash = h → (buildMDX env ok g h src o st).2 = st) ∧
    (∀ env g h src o st,
      (∀ e, getEntry (mdxKey g o) st.cache = some e → e.configHash ≠ h) →
      (buildMDX env true g h src o st).2 =
        ⟨setEntry (mdxKey g o) ⟨st.nextId, h⟩ st.cache, st.nextId + 1⟩) ∧
    (∀ env g h src o st p h', getEntry (mdxKey g o) st.cache = some ⟨p, h'⟩ →
      h' ≠ h → GoodState st → DeadProc p (buildMDX env true g h src o st).2) ∧
    (∀ envT trace st p, DeadProc p st → DeadProc p (runTrace envT trace st)) ∧
    (∀ (r : Req) st p, DeadProc p st → procUsed r st ≠ some p) := by
  refine ⟨?_, ?_, ?_, ?_, ?_⟩
  · intro env ok g h src o st e he hh
    rw [buildMDX_of_hit env ok g h src o st e he hh]
  · intro env g h src o st hmiss
    unfold buildMDX
    rw [buildProcessor_build (mdxKey g o) h st hmiss]
  · intro env g h src o st p h' he hne hgood
    have hmiss : ∀ e, getEntry (mdxKey g o) st.cache = some e →
        e.configHash ≠ h := by
      intro e he2
      rw [he] at he2
      cases he2
      exact hne
    unfold buildMDX
    rw [buildProcessor_build (mdxKey g o) h st hmiss]
    refine ⟨Nat.lt_succ_of_lt (hgood.1 _ _ he), ?_⟩
    intro k e he2
    by_cases hk : mdxKey g o = k
    · subst hk
      rw [getEntry_setEntry_same] at he2
      cases he2
      have hlt : p < st.nextId := hgood.1 _ _ he
      show st.nextId ≠ p
      omega
    · rw [getEntry_setEntry_ne _ _ _ _ hk] at he2
      intro hpp
      exact hk (hgood.2 k (mdxKey g o) e ⟨p, h'⟩ he2 he hpp).symm
  · exact fun envT trace st p => dead_trace envT trace st p
  · exact fun r st p => procUsed_ne_of_dead r st p

/-- Witness for the amended C2 at concrete inputs: starting from a cache
holding handle `0` for key `g:mdx` under fingerprint `a`, a call with
fingerprint `b` evicts handle `0` for good — afterwards the counter is
past it and a repeat call for fingerprint `a` cannot use handle `0`. -/
theorem buildMDX_fingerprint_change_rebuilds_witness :
    0 < ((buildMDX cexEnv0 true "g" "b" "s" {} ⟨[("g:mdx", ⟨0, "a"⟩)], 1⟩).2).nextId ∧
    procUsed ⟨true, "g", "a", "s", {}⟩
      ((buildMDX cexEnv0 true "g" "b" "s" {} ⟨[("g:mdx", ⟨0, "a"⟩)], 1⟩).2) ≠
      some 0 := by
  have hgood : GoodState ⟨[("g:mdx", ⟨0, "a"⟩)], 1⟩ := by
    constructor
    · intro k e he
      by_cases hk : "g:mdx" = k
      · subst hk
        injection he with h2
        subst h2
        decide
      · rw [show getEntry k [("g:mdx", ⟨0, "a"⟩)] =
          (if "g:mdx" = k then some ⟨0, "a"⟩ else getEntry k []) from rfl,
          if_neg hk] at he
        cases he
    · intro k1 k2 e1 e2 h1 h2 _
      by_cases hk1 : "g:mdx" = k1
      · by_cases hk2 : "g:mdx" = k2
        · rw [← hk1, ← hk2]
        · rw [show getEntry k2 [("g:mdx", ⟨0, "a"⟩)] =
            (if "g:mdx" = k2 then some ⟨0, "a"⟩ else getEntry k2 []) from rfl,
            if_neg hk2] at h2
          cases h2
      · rw [show getEntry k1 [("g:mdx", ⟨0, "a"⟩)] =
          (if "g:mdx" = k1 then some ⟨0, "a"⟩ else getEntry k1 []) from rfl,
          if_neg hk1] at h1
        cases h1
  have hdead := buildMDX_fingerprint_change_rebuilds.2.2.1 cexEnv0 "g" "b" "s"
    {} ⟨[("g:mdx", ⟨0, "a"⟩)], 1⟩ 0 "a" rfl (by decide) hgood
  exact ⟨hdead.1, buildMDX_fingerprint_change_rebuilds.2.2.2.2
    ⟨true, "g", "a", "s", {}⟩ _ 0 hdead⟩

/-- C3: when `createProcessor` throws on a call that needed to construct
(cache miss or fingerprint mismatch), the error propagates and the
module state — the whole cache, in particular the entry for that key —
is exactly as before the call: the failed construction stores nothing. -/
theorem buildMDX_ctor_throw_state_unchanged (env : PipelineEnv)
    (g h src : String) (o : MDXOpts) (st : BuildState)
    (hmiss : ∀ e, getEntry (mdxKey g o) st.cache = some e → e.configHash ≠ h) :
    buildMDX env false g h src o st = (.error .ctorError, st) := by
  unfold buildMDX
  rw [buildProcessor_ctorFail (mdxKey g o) h st hmiss]

/-- Witness for C3 at concrete inputs: a throwing constructor on a cold
cache rejects the call and leaves the state empty. -/
theorem buildMDX_ctor_throw_state_unchanged_witness :
    buildMDX cexEnv0 false "g" "b" "s" {} ⟨[], 0⟩ =
      (.error .ctorError, ⟨[], 0⟩) :=
  buildMDX_ctor_throw_state_unchanged cexEnv0 "g" "b" "s" {} ⟨[], 0⟩
    (fun _ he => nomatch he)

/-- The format-normalization rule exactly as claim C9 words it, for
comparison with the source's `resolveFormat`: explicit option first,
otherwise infer from a supplied file path by `.mdx` suffix, otherwise
default `mdx`. -/
def claimFormatC9 (format : Option Fmt) (filePath : Option String) : Fmt :=
  match format with
  | some f => f
  | none =>
    match filePath with
    | some fp => if strEndsWith fp ".mdx" then .mdx else .md
    | none => .mdx

/-- Counterexample to C9 as stated: for a supplied but empty `filePath`
(and no explicit format), the claim's rule gives `md` (the empty string
does not end in `.mdx`), but the code treats the empty string as falsy
and falls through to the default `mdx`. -/
theorem resolveFormat_empty_filePath_cex :
    resolveFormat none (some "") = Fmt.mdx ∧
    claimFormatC9 none (some "") = Fmt.md ∧
    resolveFormat none (some "") ≠ claimFormatC9 none (some "") := by
  refine ⟨rfl, rfl, ?_⟩
  decide

/-- C9 as amended: the resolved format is the explicit option when
present; otherwise, for a supplied non-empty file path, `mdx` exactly
when the path ends in the case-sensitive suffix `.mdx` and `md`
otherwise; otherwise (no path, or the degenerate empty-string path,
which is falsy in JS) the default `mdx`. The cache key always uses this
resolved format. -/
theorem resolveFormat_normalization :
    (∀ f fp, resolveFormat (some f) fp = f) ∧
    (∀ fp, fp ≠ "" → resolveFormat none (some fp) =
      (if strEndsWith fp ".mdx" then Fmt.mdx else Fmt.md)) ∧
    resolveFormat none (some "") = Fmt.mdx ∧
    resolveFormat none none = Fmt.mdx ∧
    (∀ g o, mdxKey g o = cacheKey g (fmtStr (resolveFormat o.format o.filePath))) := by
  refine ⟨fun f fp => rfl, ?_, rfl, rfl, fun g o => rfl⟩
  intro fp hne
  simp [resolveFormat, hne]

/-- Witness for the amended C9 at concrete inputs: `a.mdx` resolves to
`mdx`, `b.md` to `md`, and uppercase `A.MDX` to `md` (case-sensitive). -/
theorem resolveFormat_normalization_witness :
    resolveFormat none (some "a.mdx") = Fmt.mdx ∧
    resolveFormat none (some "b.md") = Fmt.md ∧
    resolveFormat none (some "A.MDX") = Fmt.md := by
  refine ⟨?_, ?_, ?_⟩
  · rw [resolveFormat_normalization.2.1 "a.mdx" (by decide)]
    decide
  · rw [resolveFormat_normalization.2.1 "b.md" (by decide)]
    decide
  · rw [resolveFormat_normalization.2.1 "A.MDX" (by decide)]
    decide

theorem headStep_other (env : PipelineEnv) (base : Option String) (hc : Bool)
    (t : String) (n : Option (Option String)) (v : Option String)
    (a p : Option Nat) (cs : List MNode) (ht : t ≠ "mdxJsxFlowElement") :
    headStep env base hc (MNode.node t n v a p cs) =
      match runIncl env base hc cs with
      | .error e => .error e
      | .ok (cs', d1) => .ok (MNode.node t n v a p cs', d1) := by
  simp [headStep, ht]

theorem headStep_skip (env : PipelineEnv) (base : Option String) (hc : Bool)
    (n : Option (Option String)) (v : Option String) (a p : Option Nat)
    (cs : List MNode) (hn : n ≠ some (some "include")) :
    headStep env base hc (MNode.node "mdxJsxFlowElement" n v a p cs) =
      .ok (MNode.node "mdxJsxFlowElement" n v a p cs, []) := by
  simp [headStep, hn]

theorem headStep_includeDescend (env : PipelineEnv) (base : Option String)
    (hc : Bool) (v : Option String) (a p : Option Nat) (cs : List MNode)
    (hch : ∀ c, cs.head? = some c → c.typ ≠ "text") :
    headStep env base hc
        (MNode.node "mdxJsxFlowElement" (some (some "include")) v a p cs) =
      match runIncl env base hc cs with
      | .error e => .error e
      | .ok (cs', d1) =>
        .ok (MNode.node "mdxJsxFlowElement" (some (some "include")) v a p cs', d1) := by
  cases hh : cs.head? with
  | none => simp [headStep, hh]
  | some c => simp [headStep, hh, hch c hh]

theorem headStep_noPath (env : PipelineEnv) (hc : Bool) (v : Option String)
    (a p : Option Nat) (cs : List MNode) (c : MNode)
    (hh : cs.head? = some c) (ht : c.typ = "text") :
    headStep env none hc
        (MNode.node "mdxJsxFlowElement" (some (some "include")) v a p cs) =
      .error .noPath := by
  simp [headStep, hh, ht]

theorem headStep_readErr (env : PipelineEnv) (fp : String) (hc : Bool)
    (v : Option String) (a p : Option Nat) (cs : List MNode) (c : MNode)
    (hh : cs.head? = some c) (ht : c.typ = "text")
    (hf : env.fsys (pathResolve (pathDirname fp) (c.value.getD "")) = none) :
    headStep env (some fp) hc
        (MNode.node "mdxJsxFlowElement" (some (some "include")) v a p cs) =
      .error (.readError (pathResolve (pathDirname fp) (c.value.getD ""))) := by
  simp [headStep, hh, ht, hf]

theorem headStep_parseErr (env : PipelineEnv) (fp : String) (hc : Bool)
    (v : Option String) (a p : Option Nat) (cs : List MNode) (c : MNode)
    (content msg : String)
    (hh : cs.head? = some c) (ht : c.typ = "text")
    (hf : env.fsys (pathResolve (pathDirname fp) (c.value.getD "")) = some content)
    (hp : env.parse (env.matterContent content) = .error msg) :
    headStep env (some fp) hc
        (MNode.node "mdxJsxFlowElement" (some (some "include")) v a p cs) =
      .error (.parseError msg) := by
  simp [headStep, hh, ht, hf, hp]

theorem headStep_resolve (env : PipelineEnv) (fp : String) (hc : Bool)
    (v : Option String) (a p : Option Nat) (cs : List MNode) (c : MNode)
    (content : String) (r : ParsedRoot)
    (hh : cs.head? = some c) (ht : c.typ = "text")
    (hf : env.fsys (pathResolve (pathDirname fp) (c.value.getD "")) = some content)
    (hp : env.parse (env.matterContent content) = .ok r) :
    headStep env (some fp) hc
        (MNode.node "mdxJsxFlowElement" (some (some "include")) v a p cs) =
      .ok (objAssignRoot
          (MNode.node "mdxJsxFlowElement" (some (some "include")) v a p cs) r,
        if hc then [pathResolve (pathDirname fp) (c.value.getD "")] else []) := by
  simp [headStep, hh, ht, hf, hp]

theorem runIncl_cons_ok_inv (env : PipelineEnv) (base : Option String)
    (hc : Bool) (m : MNode) (rest out : List MNode) (deps : List String)
    (h : runIncl env base hc (m :: rest) = .ok (out, deps)) :
    ∃ m' d1 rest' d2, headStep env base hc m = .ok (m', d1) ∧
      runIncl env base hc rest = .ok (rest', d2) ∧
      out = m' :: rest' ∧ deps = d1 ++ d2 := by
  rw [runIncl_cons] at h
  cases hhs : headStep env base hc m with
  | error e => rw [hhs] at h; cases h
  | ok pr =>
    obtain ⟨m', d1⟩ := pr
    rw [hhs] at h
    cases hr : runIncl env base hc rest with
    | error e => rw [hr] at h; cases h
    | ok pr2 =>
      obtain ⟨rest', d2⟩ := pr2
      rw [hr] at h
      cases h
      exact ⟨m', d1, rest', d2, rfl, rfl, rfl, rfl⟩

theorem runIncl_cons_of_parts (env : PipelineEnv) (base : Option String)
    (hc : Bool) (m m' : MNode) (rest rest' : List MNode) (d1 d2 : List String)
    (h1 : headStep env base hc m = .ok (m', d1))
    (h2 : runIncl env base hc rest = .ok (rest', d2)) :
    runIncl env base hc (m :: rest) = .ok (m' :: rest', d1 ++ d2) := by
  rw [runIncl_cons, h1, h2]

theorem runIncl_cons_headErr (env : PipelineEnv) (base : Option String)
    (hc : Bool) (m : MNode) (rest : List MNode) (e : TErr)
    (h1 : headStep env base hc m = .error e) :
    runIncl env base hc (m :: rest) = .error e := by
  rw [runIncl_cons, h1]

/-- A concrete mdast `text` node. -/
def textNode (s : String) : MNode := .node "text" none (some s) none none []

/-- A concrete include directive `<include>b.mdx</include>` with its
`attributes` and `position` fields present. -/
def inclB : MNode :=
  .node "mdxJsxFlowElement" (some (some "include")) none (some 1) (some 2)
    [textNode "b.mdx"]

/-- A concrete non-include JSX flow element wrapping `inclB`. -/
def wrapB : MNode :=
  .node "mdxJsxFlowElement" (some (some "Tab")) none none none [inclB]

/-- A concrete non-JSX container node wrapping `inclB`. -/
def paraB : MNode := .node "paragraph" none none none none [inclB]

/-- The node `inclB` turns into when resolved against `cexEnvB`:
`Object.assign` overwrote `type`, `children` and `position` from the
parsed root while `name` and `attributes` survived. -/
def splicedB : MNode :=
  .node "root" (some (some "include")) none (some 1) (some 9) [textNode "Hello"]

/-- A concrete environment in which exactly `/docs/b.mdx` is readable
(with content `Hello`), parsing wraps the text in a root carrying
position stamp `9`, and front-matter stripping is the identity. -/
def cexEnvB : PipelineEnv :=
  ⟨fun s => .ok ⟨[textNode s], some 9⟩, id,
    fun t => if t = "/docs/b.mdx" then some "Hello" else none⟩

theorem runIncl_length (env : PipelineEnv) (base : Option String) (hc : Bool) :
    ∀ l out deps, runIncl env base hc l = .ok (out, deps) →
      out.length = l.length := by
  intro l
  induction l with
  | nil =>
    intro out deps h
    rw [runIncl_nil] at h
    cases h
    rfl
  | cons m rest ih =>
    intro out deps h
    obtain ⟨m', d1, rest', d2, _, hr, hout, _⟩ :=
      runIncl_cons_ok_inv env base hc m rest out deps h
    subst hout
    simp [ih rest' d2 hr]

/-- C4 as amended: the walk is depth-first but returns `'skip'` from every
JSX flow element whose visit completes, so (1) a non-include JSX element's
children are never walked — include directives nested inside other JSX
elements are not located; (2) a resolvable include directive is treated
as a leaf — its children are not walked; (3) an include directive whose
first child is missing or not a text node is descended into (the visitor
early-returns `undefined` there); and (4) every non-JSX node is descended
into. -/
theorem remarkInclude_traversal_scope :
    (∀ (env : PipelineEnv) (base : Option String) (hc : Bool) n v a p cs rest,
      n ≠ some (some "include") →
      runIncl env base hc (MNode.node "mdxJsxFlowElement" n v a p cs :: rest) =
        match runIncl env base hc rest with
        | .error e => .error e
        | .ok (rest', d2) =>
          .ok (MNode.node "mdxJsxFlowElement" n v a p cs :: rest', d2)) ∧
    (∀ (env : PipelineEnv) fp (hc : Bool) v a p cs rest c content r,
      cs.head? = some c → c.typ = "text" →
      env.fsys (pathResolve (pathDirname fp) (c.value.getD "")) = some content →
      env.parse (env.matterContent content) = .ok r →
      runIncl env (some fp) hc
          (MNode.node "mdxJsxFlowElement" (some (some "include")) v a p cs :: rest) =
        match runIncl env (some fp) hc rest with
        | .error e => .error e
        | .ok (rest', d2) =>
          .ok (objAssignRoot
              (MNode.node "mdxJsxFlowElement" (some (some "include")) v a p cs) r ::
              rest',
            (if hc then [pathResolve (pathDirname fp) (c.value.getD "")] else []) ++ d2)) ∧
    (∀ (env : PipelineEnv) (base : Option String) (hc : Bool) v a p cs rest,
      (∀ c, cs.head? = some c → c.typ ≠ "text") →
      runIncl env base hc
          (MNode.node "mdxJsxFlowElement" (some (some "include")) v a p cs :: rest) =
        match runIncl env base hc cs with
        | .error e => .error e
        | .ok (cs', d1) =>
          match runIncl env base hc rest with
          | .error e => .error e
          | .ok (rest', d2) =>
            .ok (MNode.node "mdxJsxFlowElement" (some (some "include")) v a p cs' ::
              rest', d1 ++ d2)) ∧
    (∀ (env : PipelineEnv) (base : Option String) (hc : Bool) t n v a p cs rest,
      t ≠ "mdxJsxFlowElement" →
      runIncl env base hc (MNode.node t n v a p cs :: rest) =
        match runIncl env base hc cs with
        | .error e => .error e
        | .ok (cs', d1) =>
          match runIncl env base hc rest with
          | .error e => .error e
          | .ok (rest', d2) => .ok (MNode.node t n v a p cs' :: rest', d1 ++ d2)) := by
  refine ⟨?_, ?_, ?_, ?_⟩
  · intro env base hc n v a p cs rest hn
    rw [runIncl_cons, headStep_skip env base hc n v a p cs hn]
    cases runIncl env base hc rest with
    | error e => rfl
    | ok pr => obtain ⟨rest', d2⟩ := pr; rfl
  · intro env fp hc v a p cs rest c content r hh ht hf hp
    rw [runIncl_cons, headStep_resolve env fp hc v a p cs c content r hh ht hf hp]
  · intro env base hc v a p cs rest hch
    rw [runIncl_cons, headStep_includeDescend env base hc v a p cs hch]
    cases runIncl env base hc cs with
    | error e => rfl
    | ok pr => obtain ⟨cs', d1⟩ := pr; rfl
  · intro env base hc t n v a p cs rest ht
    rw [runIncl_cons, headStep_other env base hc t n v a p cs ht]
    cases runIncl env base hc cs with
    | error e => rfl
    | ok pr => obtain ⟨cs', d1⟩ := pr; rfl

/-- Counterexample to C4 as stated: the include directive nested inside
the JSX element `Tab` is resolvable in this environment (second
conjunct: visited on its own, it resolves and reports its dependency),
yet walking the wrapped tree leaves it untouched and reports nothing
(first conjunct) — the traversal does not locate include directives
nested inside other JSX elements, because the visitor returns `'skip'`
for every JSX flow element. -/
theorem remarkInclude_nested_include_not_located_cex :
    runIncl cexEnvB (some "/docs/a.mdx") true [wrapB] = .ok ([wrapB], []) ∧
    runIncl cexEnvB (some "/docs/a.mdx") true [inclB] =
      .ok ([splicedB], ["/docs/b.mdx"]) := by
  constructor
  · rw [show wrapB = MNode.node "mdxJsxFlowElement" (some (some "Tab")) none
      none none [inclB] from rfl]
    rw [runIncl_cons_of_parts cexEnvB (some "/docs/a.mdx") true _ _ [] [] _ []
      (headStep_skip cexEnvB (some "/docs/a.mdx") true (some (some "Tab")) none
        none none [inclB] (by decide))
      (runIncl_nil cexEnvB (some "/docs/a.mdx") true)]
    rfl
  · rw [show inclB = MNode.node "mdxJsxFlowElement" (some (some "include")) none
      (some 1) (some 2) [textNode "b.mdx"] from rfl]
    rw [runIncl_cons_of_parts cexEnvB (some "/docs/a.mdx") true _ _ [] [] _ []
      (headStep_resolve cexEnvB "/docs/a.mdx" true none (some 1) (some 2)
        [textNode "b.mdx"] (textNode "b.mdx") "Hello" ⟨[textNode "Hello"], some 9⟩
        rfl rfl rfl rfl)
      (runIncl_nil cexEnvB (some "/docs/a.mdx") true)]
    rfl

/-- Witness for the amended C4 at concrete inputs: a non-JSX container
node is descended into, so the include directive below it is located and
resolved in place. -/
theorem remarkInclude_traversal_scope_witness :
    runIncl cexEnvB (some "/docs/a.mdx") true [paraB] =
      .ok ([MNode.node "paragraph" none none none none [splicedB]],
        ["/docs/b.mdx"]) := by
  rw [show paraB = MNode.node "paragraph" none none none none [inclB] from rfl]
  rw [remarkInclude_traversal_scope.2.2.2 cexEnvB (some "/docs/a.mdx") true
    "paragraph" none none none none [inclB] [] (by decide)]
  rw [show inclB = MNode.node "mdxJsxFlowElement" (some (some "include")) none
    (some 1) (some 2) [textNode "b.mdx"] from rfl]
  rw [runIncl_cons_of_parts cexEnvB (some "/docs/a.mdx") true _ _ [] [] _ []
    (headStep_resolve cexEnvB "/docs/a.mdx" true none (some 1) (some 2)
      [textNode "b.mdx"] (textNode "b.mdx") "Hello" ⟨[textNode "Hello"], some 9⟩
      rfl rfl rfl rfl)
    (runIncl_nil cexEnvB (some "/docs/a.mdx") true)]
  rw [runIncl_nil]
  rfl

theorem visitedSpecs_nil : visitedSpecs [] = [] := by
  simp [visitedSpecs]

theorem visitedSpecs_cons_skip (n : Option (Option String)) (v : Option String)
    (a p : Option Nat) (cs rest : List MNode) (hn : n ≠ some (some "include")) :
    visitedSpecs (MNode.node "mdxJsxFlowElement" n v a p cs :: rest) =
      visitedSpecs rest := by
  simp [visitedSpecs, hn]

theorem visitedSpecs_cons_resolve (v : Option String) (a p : Option Nat)
    (cs rest : List MNode) (c : MNode) (hh : cs.head? = some c)
    (ht : c.typ = "text") :
    visitedSpecs
        (MNode.node "mdxJsxFlowElement" (some (some "include")) v a p cs :: rest) =
      (c.value.getD "") :: visitedSpecs rest := by
  simp [visitedSpecs, hh, ht]

theorem visitedSpecs_cons_includeDescend (v : Option String) (a p : Option Nat)
    (cs rest : List MNode) (hch : ∀ c, cs.head? = some c → c.typ ≠ "text") :
    visitedSpecs
        (MNode.node "mdxJsxFlowElement" (some (some "include")) v a p cs :: rest) =
      visitedSpecs cs ++ visitedSpecs rest := by
  cases hh : cs.head? with
  | none => simp [visitedSpecs, hh]
  | some c => simp [visitedSpecs, hh, hch c hh]

theorem visitedSpecs_cons_other (t : String) (n : Option (Option String))
    (v : Option String) (a p : Option Nat) (cs rest : List MNode)
    (ht : t ≠ "mdxJsxFlowElement") :
    visitedSpecs (MNode.node t n v a p cs :: rest) =
      visitedSpecs cs ++ visitedSpecs rest := by
  simp [visitedSpecs, ht]

theorem headStep_resolvable_eq (env : PipelineEnv) (fp : String) (hc : Bool)
    (v : Option String) (a p : Option Nat) (cs : List MNode) (c : MNode)
    (hh : cs.head? = some c) (ht : c.typ = "text") :
    headStep env (some fp) hc
        (MNode.node "mdxJsxFlowElement" (some (some "include")) v a p cs) =
      match env.fsys (pathResolve (pathDirname fp) (c.value.getD "")) with
      | none => .error (.readError (pathResolve (pathDirname fp) (c.value.getD "")))
      | some content =>
        match env.parse (env.matterContent content) with
        | .error m => .error (.parseError m)
        | .ok r =>
          .ok (objAssignRoot
              (MNode.node "mdxJsxFlowElement" (some (some "include")) v a p cs) r,
            if hc then [pathResolve (pathDirname fp) (c.value.getD "")] else []) := by
  cases hf : env.fsys (pathResolve (pathDirname fp) (c.value.getD "")) with
  | none => rw [headStep_readErr env fp hc v a p cs c hh ht hf]
  | some content =>
    cases hp : env.parse (env.matterContent content) with
    | error m =>
      rw [headStep_parseErr env fp hc v a p cs c content m hh ht hf hp]
      simp [hp]
    | ok r =>
      rw [headStep_resolve env fp hc v a p cs c content r hh ht hf hp]
      simp [hp]

theorem runIncl_deps_eq (env : PipelineEnv) (fp : String) :
    ∀ l, ∀ (hc : Bool) out deps, runIncl env (some fp) hc l = .ok (out, deps) →
      deps = if hc then
        (visitedSpecs l).map (fun s => pathResolve (pathDirname fp) s)
      else [] := by
  refine mnodeListInd _ ?_ ?_
  · intro hc out deps h
    rw [runIncl_nil] at h
    cases h
    simp [visitedSpecs_nil]
  · intro t n v a p cs rest ihcs ihrest hc out deps h
    obtain ⟨m', d1, rest', d2, hhs, hr, hout, hdeps⟩ :=
      runIncl_cons_ok_inv env (some fp) hc _ rest out deps h
    subst hdeps
    have hd2 := ihrest hc rest' d2 hr
    by_cases ht : t = "mdxJsxFlowElement"
    · subst ht
      by_cases hn : n = some (some "include")
      · subst hn
        cases hch : cs.head? with
        | none =>
          rw [headStep_includeDescend env (some fp) hc v a p cs
            (fun c hc2 => by rw [hch] at hc2; cases hc2)] at hhs
          cases hcs : runIncl env (some fp) hc cs with
          | error e => rw [hcs] at hhs; cases hhs
          | ok pr =>
            obtain ⟨cs', d1'⟩ := pr
            rw [hcs] at hhs
            cases hhs
            have hd1 := ihcs hc cs' d1 hcs
            rw [visitedSpecs_cons_includeDescend v a p cs rest
              (fun c hc2 => by rw [hch] at hc2; cases hc2)]
            cases hc with
            | false => simp at hd1 hd2; simp [hd1, hd2]
            | true => simp at hd1 hd2; simp [hd1, hd2]
        | some c =>
          by_cases hctext : c.typ = "text"
          · rw [headStep_resolvable_eq env fp hc v a p cs c hch hctext] at hhs
            split at hhs
            · cases hhs
            · split at hhs
              · cases hhs
              · cases hhs
                rw [visitedSpecs_cons_resolve v a p cs rest c hch hctext]
                cases hc with
                | false => simp at hd2; simp [hd2]
                | true => simp at hd2; simp [hd2]
          · rw [headStep_includeDescend env (some fp) hc v a p cs
              (fun c2 hc2 => by rw [hch] at hc2; cases hc2; exact hctext)] at hhs
            cases hcs : runIncl env (some fp) hc cs with
            | error e => rw [hcs] at hhs; cases hhs
            | ok pr =>
              obtain ⟨cs', d1'⟩ := pr
              rw [hcs] at hhs
              cases hhs
              have hd1 := ihcs hc cs' d1 hcs
              rw [visitedSpecs_cons_includeDescend v a p cs rest
                (fun c2 hc2 => by rw [hch] at hc2; cases hc2; exact hctext)]
              cases hc with
              | false => simp at hd1 hd2; simp [hd1, hd2]
              | true => simp at hd1 hd2; simp [hd1, hd2]
      · rw [headStep_skip env (some fp) hc n v a p cs hn] at hhs
        cases hhs
        rw [visitedSpecs_cons_skip n v a p cs rest hn]
        cases hc with
        | false => simp at hd2; simp [hd2]
        | true => simp at hd2; simp [hd2]
    · rw [headStep_other env (some fp) hc t n v a p cs ht] at hhs
      cases hcs : runIncl env (some fp) hc cs with
      | error e => rw [hcs] at hhs; cases hhs
      | ok pr =>
        obtain ⟨cs', d1'⟩ := pr
        rw [hcs] at hhs
        cases hhs
        have hd1 := ihcs hc cs' d1 hcs
        rw [visitedSpecs_cons_other t n v a p cs rest ht]
        cases hc with
        | false => simp at hd1 hd2; simp [hd1, hd2]
        | true => simp at hd1 hd2; simp [hd1, hd2]

theorem runIncl_false_eq (env : PipelineEnv) (base : Option String) :
    ∀ l, runIncl env base false l =
      match runIncl env base true l with
      | .error e => .error e
      | .ok (out, _) => .ok (out, []) := by
  refine mnodeListInd _ ?_ ?_
  · rw [runIncl_nil, runIncl_nil]
  · intro t n v a p cs rest ihcs ihrest
    rw [runIncl_cons env base false, runIncl_cons env base true]
    by_cases ht : t = "mdxJsxFlowElement"
    · subst ht
      by_cases hn : n = some (some "include")
      · subst hn
        rcases hresolved : cs.head? with _ | c
        · have hch2 : ∀ c, cs.head? = some c → c.typ ≠ "text" :=
            fun c hc2 => by rw [hresolved] at hc2; cases hc2
          rw [headStep_includeDescend env base false v a p cs hch2,
            headStep_includeDescend env base true v a p cs hch2, ihcs]
          cases runIncl env base true cs with
          | error e => rfl
          | ok pr =>
            obtain ⟨cs', d1⟩ := pr
            rw [ihrest]
            cases runIncl env base true rest with
            | error e => rfl
            | ok pr2 => obtain ⟨rest', d2⟩ := pr2; rfl
        · by_cases hctext : c.typ = "text"
          · cases base with
            | none =>
              rw [headStep_noPath env false v a p cs c hresolved hctext,
                headStep_noPath env true v a p cs c hresolved hctext]
            | some fp =>
              cases hf : env.fsys (pathResolve (pathDirname fp) (c.value.getD "")) with
              | none =>
                rw [headStep_readErr env fp false v a p cs c hresolved hctext hf,
                  headStep_readErr env fp true v a p cs c hresolved hctext hf]
              | some content =>
                cases hp : env.parse (env.matterContent content) with
                | error m =>
                  rw [headStep_parseErr env fp false v a p cs c content m
                      hresolved hctext hf hp,
                    headStep_parseErr env fp true v a p cs c content m
                      hresolved hctext hf hp]
                | ok r =>
                  rw [headStep_resolve env fp false v a p cs c content r
                      hresolved hctext hf hp,
                    headStep_resolve env fp true v a p cs c content r
                      hresolved hctext hf hp, ihrest]
                  cases runIncl env (some fp) true rest with
                  | error e => rfl
                  | ok pr2 => obtain ⟨rest', d2⟩ := pr2; rfl
          · have hch2 : ∀ c2, cs.head? = some c2 → c2.typ ≠ "text" :=
              fun c2 hc2 => by rw [hresolved] at hc2; cases hc2; exact hctext
            rw [headStep_includeDescend env base false v a p cs hch2,
              headStep_includeDescend env base true v a p cs hch2, ihcs]
            cases runIncl env base true cs with
            | error e => rfl
            | ok pr =>
              obtain ⟨cs', d1⟩ := pr
              rw [ihrest]
              cases runIncl env base true rest with
              | error e => rfl
              | ok pr2 => obtain ⟨rest', d2⟩ := pr2; rfl
      · rw [headStep_skip env base false n v a p cs hn,
          headStep_skip env base true n v a p cs hn, ihrest]
        cases runIncl env base true rest with
        | error e => rfl
        | ok pr2 => obtain ⟨rest', d2⟩ := pr2; rfl
    · rw [headStep_other env base false t n v a p cs ht,
        headStep_other env base true t n v a p cs ht, ihcs]
      cases runIncl env base true cs with
      | error e => rfl
      | ok pr =>
        obtain ⟨cs', d1⟩ := pr
        rw [ihrest]
        cases runIncl env base true rest with
        | error e => rfl
        | ok pr2 => obtain ⟨rest', d2⟩ := pr2; rfl

/-- Counterexample to C5 as stated: after a completed resolution the
node's `name` tag (and its `attributes` field) survive, because
`Object.assign(node, parsed)` only overwrites the properties the parsed
root owns (`type`, `children`, `position`) — the node is still
identifiable as an include element by its surviving `name` field. -/
theorem remarkInclude_splice_keeps_name_cex :
    runIncl cexEnvB (some "/docs/a.mdx") false [inclB] = .ok ([splicedB], []) ∧
    splicedB.name = some (some "include") ∧ splicedB.attributes = some 1 := by
  refine ⟨?_, rfl, rfl⟩
  rw [show inclB = MNode.node "mdxJsxFlowElement" (some (some "include")) none
    (some 1) (some 2) [textNode "b.mdx"] from rfl]
  rw [runIncl_cons_of_parts cexEnvB (some "/docs/a.mdx") false _ _ [] [] _ []
    (headStep_resolve cexEnvB "/docs/a.mdx" false none (some 1) (some 2)
      [textNode "b.mdx"] (textNode "b.mdx") "Hello" ⟨[textNode "Hello"], some 9⟩
      rfl rfl rfl rfl)
    (runIncl_nil cexEnvB (some "/docs/a.mdx") false)]
  rfl

/-- C5 as amended: when resolution of an include directive completes, the
node is overwritten in place with the properties the freshly parsed root
owns — `type` becomes `root`, `children` and (when present) `position`
are replaced — while properties absent from the parsed root (`name`,
`value`, `attributes`) keep the node's values, so the include's name tag
survives; the node keeps its slot in the parent's child sequence and
sibling counts are preserved. -/
theorem remarkInclude_splice_in_place :
    (∀ t nm v a p cs r, objAssignRoot (MNode.node t nm v a p cs) r =
      MNode.node "root" nm v a (r.position <|> p) r.children) ∧
    (∀ (env : PipelineEnv) fp (hc : Bool) v a p cs rest c content r,
      cs.head? = some c → c.typ = "text" →
      env.fsys (pathResolve (pathDirname fp) (c.value.getD "")) = some content →
      env.parse (env.matterContent content) = .ok r →
      runIncl env (some fp) hc
          (MNode.node "mdxJsxFlowElement" (some (some "include")) v a p cs :: rest) =
        match runIncl env (some fp) hc rest with
        | .error e => .error e
        | .ok (rest', d2) =>
          .ok (MNode.node "root" (some (some "include")) v a
              (r.position <|> p) r.children :: rest',
            (if hc then [pathResolve (pathDirname fp) (c.value.getD "")] else []) ++ d2)) ∧
    (∀ (env : PipelineEnv) (base : Option String) (hc : Bool) l out deps,
      runIncl env base hc l = .ok (out, deps) → out.length = l.length) := by
  refine ⟨fun t nm v a p cs r => rfl, ?_, runIncl_length⟩
  intro env fp hc v a p cs rest c content r hh ht hf hp
  rw [runIncl_cons, headStep_resolve env fp hc v a p cs c content r hh ht hf hp]
  cases runIncl env (some fp) hc rest with
  | error e => rfl
  | ok pr => obtain ⟨rest', d2⟩ := pr; rfl

/-- Witness for the amended C5 at concrete inputs: in a sibling list
`[text, include]`, the include resolves in place at index 1; the spliced
node keeps `name = include` and `attributes` while taking the parsed
root's `type`, `children` and `position`. -/
theorem remarkInclude_splice_in_place_witness :
    runIncl cexEnvB (some "/docs/a.mdx") false [textNode "x", inclB] =
      .ok ([textNode "x", splicedB], []) := by
  have hrest : runIncl cexEnvB (some "/docs/a.mdx") false [inclB] =
      .ok ([splicedB], []) := by
    rw [show inclB = MNode.node "mdxJsxFlowElement" (some (some "include")) none
      (some 1) (some 2) [textNode "b.mdx"] from rfl]
    rw [remarkInclude_splice_in_place.2.1 cexEnvB "/docs/a.mdx" false none
      (some 1) (some 2) [textNode "b.mdx"] [] (textNode "b.mdx") "Hello"
      ⟨[textNode "Hello"], some 9⟩ rfl rfl rfl rfl]
    rw [runIncl_nil]
    rfl
  have hhs : headStep cexEnvB (some "/docs/a.mdx") false (textNode "x") =
      .ok (textNode "x", []) := by
    rw [show textNode "x" = MNode.node "text" none (some "x") none none []
      from rfl]
    rw [headStep_other cexEnvB (some "/docs/a.mdx") false "text" none (some "x")
      none none [] (by decide), runIncl_nil]
  rw [runIncl_cons_of_parts cexEnvB (some "/docs/a.mdx") false _ _ [inclB]
    [splicedB] _ [] hhs hrest]
  rfl

/-- C6: on a successful transform, the `addDependency` notifications are
exactly the resolved absolute target paths of the include directives the
walk visits, one notification per occurrence in traversal order (the
same path included twice is reported twice — no deduplication); and when
the `_compiler` capability is absent the transform behaves identically
except that it reports nothing: same resolved tree, same success or
failure. -/
theorem remarkInclude_dependency_reporting :
    (∀ (env : PipelineEnv) fp (hc : Bool) l out deps,
      runIncl env (some fp) hc l = .ok (out, deps) →
      deps = if hc then
        (visitedSpecs l).map (fun s => pathResolve (pathDirname fp) s)
      else []) ∧
    (∀ (env : PipelineEnv) (base : Option String) l,
      runIncl env base false l =
        match runIncl env base true l with
        | .error e => .error e
        | .ok (out, _) => .ok (out, [])) :=
  ⟨fun env fp hc l out deps h => runIncl_deps_eq env fp l hc out deps h,
    fun env base l => runIncl_false_eq env base l⟩

/-- Witness for C6 at concrete inputs: a document holding the same
include directive twice reports its resolved path twice — one
notification per occurrence. -/
theorem remarkInclude_dependency_reporting_witness :
    ["/docs/b.mdx", "/docs/b.mdx"] =
      (visitedSpecs [inclB, inclB]).map
        (fun s => pathResolve (pathDirname "/docs/a.mdx") s) := by
  have hone : headStep cexEnvB (some "/docs/a.mdx") true inclB =
      .ok (splicedB, ["/docs/b.mdx"]) := by
    rw [show inclB = MNode.node "mdxJsxFlowElement" (some (some "include")) none
      (some 1) (some 2) [textNode "b.mdx"] from rfl]
    rw [headStep_resolve cexEnvB "/docs/a.mdx" true none (some 1) (some 2)
      [textNode "b.mdx"] (textNode "b.mdx") "Hello" ⟨[textNode "Hello"], some 9⟩
      rfl rfl rfl rfl]
    rfl
  have hrun : runIncl cexEnvB (some "/docs/a.mdx") true [inclB, inclB] =
      .ok ([splicedB, splicedB], ["/docs/b.mdx", "/docs/b.mdx"]) := by
    rw [runIncl_cons_of_parts cexEnvB (some "/docs/a.mdx") true _ _ [inclB]
      [splicedB] ["/docs/b.mdx"] ["/docs/b.mdx"] hone
      (runIncl_cons_of_parts cexEnvB (some "/docs/a.mdx") true _ _ [] []
        ["/docs/b.mdx"] [] hone (runIncl_nil cexEnvB (some "/docs/a.mdx") true))]
    rfl
  have hdeps := (remarkInclude_dependency_reporting).1 cexEnvB "/docs/a.mdx"
    true [inclB, inclB] _ _ hrun
  simpa using hdeps

theorem buildProcessor_true_ok (key h : String) (st : BuildState) :
    ∃ p st', buildProcessor true key h st = .ok (p, st') := by
  cases he : getEntry key st.cache with
  | none =>
    exact ⟨st.nextId, _, buildProcessor_build key h st
      (fun e' he2 => by rw [he] at he2; cases he2)⟩
  | some e =>
    by_cases hh : e.configHash = h
    · exact ⟨e.processor, st, buildProcessor_hit true key h st e he hh⟩
    · exact ⟨st.nextId, _, buildProcessor_build key h st
        (fun e' he2 => by rw [he] at he2; cases he2; exact hh)⟩

theorem buildProcessor_ok_entry (ok : Bool) (key h : String) (st : BuildState)
    (p : Nat) (st' : BuildState)
    (hb : buildProcessor ok key h st = .ok (p, st')) :
    getEntry key st'.cache = some ⟨p, h⟩ := by
  rcases buildProcessor_ok_cases ok key h st p st' hb with
    ⟨e, he, hh, hpe, hst⟩ | ⟨_, hpe, hst⟩
  · obtain ⟨ep, eh⟩ := e
    subst hst
    simp only at hh hpe
    rw [he, hh, hpe]
  · subst hst
    subst hpe
    exact getEntry_setEntry_same _ _ _

theorem processDoc_err (env : PipelineEnv) (p : Nat) (src : String)
    (filePath : Option String) (hc : Bool) (r : ParsedRoot) (e : TErr)
    (hparse : env.parse src = .ok r)
    (hrun : runIncl env filePath hc [rootNode r] = .error e) :
    processDoc env p src filePath hc = .error (.transformError e) := by
  unfold processDoc
  rw [hparse]
  show (match runIncl env filePath hc [rootNode r] with
    | .error e => Except.error (BErr.transformError e)
    | .ok (ts, deps) =>
      Except.ok (Artifact.mk p (ts.headD (rootNode r)) deps)) = _
  rw [hrun]

theorem processDoc_ok (env : PipelineEnv) (p : Nat) (src : String)
    (filePath : Option String) (hc : Bool) (r : ParsedRoot) (out : List MNode)
    (deps : List String)
    (hparse : env.parse src = .ok r)
    (hrun : runIncl env filePath hc [rootNode r] = .ok (out, deps)) :
    processDoc env p src filePath hc = .ok ⟨p, out.headD (rootNode r), deps⟩ := by
  unfold processDoc
  rw [hparse]
  show (match runIncl env filePath hc [rootNode r] with
    | .error e => Except.error (BErr.transformError e)
    | .ok (ts, deps) =>
      Except.ok (Artifact.mk p (ts.headD (rootNode r)) deps)) = _
  rw [hrun]

theorem runIncl_none_base (env : PipelineEnv) (hc : Bool) :
    ∀ l, (visitedSpecs l = [] → runIncl env none hc l = .ok (l, [])) ∧
      (visitedSpecs l ≠ [] → runIncl env none hc l = .error .noPath) := by
  refine mnodeListInd _ ?_ ?_
  · constructor
    · intro _
      exact runIncl_nil env none hc
    · intro hne
      exact absurd visitedSpecs_nil hne
  · intro t n v a p cs rest ihcs ihrest
    by_cases ht : t = "mdxJsxFlowElement"
    · subst ht
      by_cases hn : n = some (some "include")
      · subst hn
        rcases hch : cs.head? with _ | c
        · have hch2 : ∀ c, cs.head? = some c → c.typ ≠ "text" :=
            fun c hc2 => by rw [hch] at hc2; cases hc2
          constructor
          · intro hemp
            rw [visitedSpecs_cons_includeDescend v a p cs rest hch2] at hemp
            obtain ⟨h1, h2⟩ := List.append_eq_nil.mp hemp
            rw [runIncl_cons, headStep_includeDescend env none hc v a p cs hch2,
              ihcs.1 h1, ihrest.1 h2]
            rfl
          · intro hne
            rw [visitedSpecs_cons_includeDescend v a p cs rest hch2] at hne
            by_cases h1 : visitedSpecs cs = []
            · have h2 : visitedSpecs rest ≠ [] := by
                simp [h1] at hne
                exact hne
              rw [runIncl_cons, headStep_includeDescend env none hc v a p cs hch2,
                ihcs.1 h1, ihrest.2 h2]
            · rw [runIncl_cons, headStep_includeDescend env none hc v a p cs hch2,
                ihcs.2 h1]
        · by_cases hctext : c.typ = "text"
          · constructor
            · intro hemp
              rw [visitedSpecs_cons_resolve v a p cs rest c hch hctext] at hemp
              simp at hemp
            · intro _
              exact runIncl_cons_headErr env none hc _ rest .noPath
                (headStep_noPath env hc v a p cs c hch hctext)
          · have hch2 : ∀ c2, cs.head? = some c2 → c2.typ ≠ "text" :=
              fun c2 hc2 => by rw [hch] at hc2; cases hc2; exact hctext
            constructor
            · intro hemp
              rw [visitedSpecs_cons_includeDescend v a p cs rest hch2] at hemp
              obtain ⟨h1, h2⟩ := List.append_eq_nil.mp hemp
              rw [runIncl_cons, headStep_includeDescend env none hc v a p cs hch2,
                ihcs.1 h1, ihrest.1 h2]
              rfl
            · intro hne
              rw [visitedSpecs_cons_includeDescend v a p cs rest hch2] at hne
              by_cases h1 : visitedSpecs cs = []
              · have h2 : visitedSpecs rest ≠ [] := by
                  simp [h1] at hne
                  exact hne
                rw [runIncl_cons,
                  headStep_includeDescend env none hc v a p cs hch2,
                  ihcs.1 h1, ihrest.2 h2]
              · rw [runIncl_cons,
                  headStep_includeDescend env none hc v a p cs hch2,
                  ihcs.2 h1]
      · constructor
        · intro hemp
          rw [visitedSpecs_cons_skip n v a p cs rest hn] at hemp
          rw [runIncl_cons, headStep_skip env none hc n v a p cs hn,
            ihrest.1 hemp]
          rfl
        · intro hne
          rw [visitedSpecs_cons_skip n v a p cs rest hn] at hne
          rw [runIncl_cons, headStep_skip env none hc n v a p cs hn,
            ihrest.2 hne]
    · constructor
      · intro hemp
        rw [visitedSpecs_cons_other t n v a p cs rest ht] at hemp
        obtain ⟨h1, h2⟩ := List.append_eq_nil.mp hemp
        rw [runIncl_cons, headStep_other env none hc t n v a p cs ht,
          ihcs.1 h1, ihrest.1 h2]
        rfl
      · intro hne
        rw [visitedSpecs_cons_other t n v a p cs rest ht] at hne
        by_cases h1 : visitedSpecs cs = []
        · have h2 : visitedSpecs rest ≠ [] := by
            simp [h1] at hne
            exact hne
          rw [runIncl_cons, headStep_other env none hc t n v a p cs ht,
            ihcs.1 h1, ihrest.2 h2]
        · rw [runIncl_cons, headStep_other env none hc t n v a p cs ht,
            ihcs.2 h1]

/-- C7: when the include transform fails (any single resolution failing
fails the whole `Promise.all`), the `buildMDX` promise rejects with that
transform error, yet the cache entry for the call's key holds a valid
processor under the call's fingerprint, and an identical follow-up call
reuses it — the follow-up leaves the module state untouched (no
reconstruction) and rejects with the same error. -/
theorem buildMDX_include_failure_cache_unaffected
    (env : PipelineEnv) (g h src : String) (o : MDXOpts) (st : BuildState)
    (r : ParsedRoot) (e : TErr)
    (hparse : env.parse src = .ok r)
    (hrun : runIncl env o.filePath o.hasCompiler [rootNode r] = .error e) :
    (buildMDX env true g h src o st).1 = .error (.transformError e) ∧
    (∃ p, getEntry (mdxKey g o) (buildMDX env true g h src o st).2.cache =
      some ⟨p, h⟩) ∧
    buildMDX env true g h src o (buildMDX env true g h src o st).2 =
      (.error (.transformError e), (buildMDX env true g h src o st).2) := by
  obtain ⟨p, st', hb⟩ := buildProcessor_true_ok (mdxKey g o) h st
  have hbm : buildMDX env true g h src o st =
      (.error (.transformError e), st') := by
    unfold buildMDX
    rw [hb]
    show (processDoc env p src o.filePath o.hasCompiler, st') = _
    rw [processDoc_err env p src o.filePath o.hasCompiler r e hparse hrun]
  have hentry : getEntry (mdxKey g o) st'.cache = some ⟨p, h⟩ :=
    buildProcessor_ok_entry true (mdxKey g o) h st p st' hb
  refine ⟨by rw [hbm], ⟨p, by rw [hbm]; exact hentry⟩, ?_⟩
  rw [hbm]
  show buildMDX env true g h src o st' = (.error (.transformError e), st')
  rw [buildMDX_of_hit env true g h src o st' ⟨p, h⟩ hentry rfl]
  show (processDoc env p src o.filePath o.hasCompiler, st') = _
  rw [processDoc_err env p src o.filePath o.hasCompiler r e hparse hrun]

/-- An include directive whose target `/docs/missing.mdx` is unreadable. -/
def inclM : MNode :=
  .node "mdxJsxFlowElement" (some (some "include")) none none none
    [textNode "missing.mdx"]

/-- A concrete environment whose parser yields a document consisting of
`inclM` and whose filesystem rejects every read. -/
def cexEnvC7 : PipelineEnv :=
  ⟨fun _ => .ok ⟨[inclM], none⟩, id, fun _ => none⟩

/-- Witness for C7 at concrete inputs: building a document with one
include of an unreadable file rejects with that read error, and the
immediately repeated call reuses the cached processor and leaves the
module state unchanged. -/
theorem buildMDX_include_failure_cache_unaffected_witness :
    (buildMDX cexEnvC7 true "g" "h" "s" ⟨none, some "/docs/a.mdx", false⟩
      ⟨[], 0⟩).1 = .error (.transformError (.readError "/docs/missing.mdx")) ∧
    buildMDX cexEnvC7 true "g" "h" "s" ⟨none, some "/docs/a.mdx", false⟩
        (buildMDX cexEnvC7 true "g" "h" "s" ⟨none, some "/docs/a.mdx", false⟩
          ⟨[], 0⟩).2 =
      (.error (.transformError (.readError "/docs/missing.mdx")),
        (buildMDX cexEnvC7 true "g" "h" "s" ⟨none, some "/docs/a.mdx", false⟩
          ⟨[], 0⟩).2) := by
  have hinner : runIncl cexEnvC7 (some "/docs/a.mdx") false [inclM] =
      .error (.readError "/docs/missing.mdx") := by
    rw [show inclM = MNode.node "mdxJsxFlowElement" (some (some "include"))
      none none none [textNode "missing.mdx"] from rfl]
    exact runIncl_cons_headErr cexEnvC7 (some "/docs/a.mdx") false _ [] _
      (headStep_readErr cexEnvC7 "/docs/a.mdx" false none none none
        [textNode "missing.mdx"] (textNode "missing.mdx") rfl rfl rfl)
  have hroot : runIncl cexEnvC7 (some "/docs/a.mdx") false
      [rootNode ⟨[inclM], none⟩] =
      .error (.readError "/docs/missing.mdx") := by
    refine runIncl_cons_headErr cexEnvC7 (some "/docs/a.mdx") false _ [] _ ?_
    rw [show rootNode ⟨[inclM], none⟩ =
      MNode.node "root" none none none none [inclM] from rfl]
    rw [headStep_other cexEnvC7 (some "/docs/a.mdx") false "root" none none
      none none [inclM] (by decide), hinner]
  have happ := buildMDX_include_failure_cache_unaffected cexEnvC7 "g" "h" "s"
    ⟨none, some "/docs/a.mdx", false⟩ ⟨[], 0⟩ ⟨[inclM], none⟩
    (.readError "/docs/missing.mdx") rfl hroot
  exact ⟨happ.1, happ.2.2⟩

/-- An include directive whose first child is the include `inclM` —
so its first child is not a text node. -/
def nodeA : MNode :=
  .node "mdxJsxFlowElement" (some (some "include")) none none none [inclM]

/-- A concrete environment whose parser yields a document consisting of
`nodeA` and whose filesystem rejects every read. -/
def cexEnvC8 : PipelineEnv :=
  ⟨fun _ => .ok ⟨[nodeA], none⟩, id, fun _ => none⟩

/-- Counterexample to C8 as stated: `nodeA` is an include directive whose
first child is not a text node (it is another JSX element), yet the
transform is not a no-op on it and the build does not complete: the walk
descends into its children, resolves the nested include of an unreadable
file, and the whole build rejects. -/
theorem remarkInclude_nontext_child_cex :
    inclM.typ ≠ "text" ∧
    runIncl cexEnvC8 (some "/docs/a.mdx") false [nodeA] =
      .error (.readError "/docs/missing.mdx") ∧
    (buildMDX cexEnvC8 true "g" "h" "s" ⟨none, some "/docs/a.mdx", false⟩
      ⟨[], 0⟩).1 = .error (.transformError (.readError "/docs/missing.mdx")) := by
  have hinner : runIncl cexEnvC8 (some "/docs/a.mdx") false [inclM] =
      .error (.readError "/docs/missing.mdx") := by
    rw [show inclM = MNode.node "mdxJsxFlowElement" (some (some "include"))
      none none none [textNode "missing.mdx"] from rfl]
    exact runIncl_cons_headErr cexEnvC8 (some "/docs/a.mdx") false _ [] _
      (headStep_readErr cexEnvC8 "/docs/a.mdx" false none none none
        [textNode "missing.mdx"] (textNode "missing.mdx") rfl rfl rfl)
  have hA : runIncl cexEnvC8 (some "/docs/a.mdx") false [nodeA] =
      .error (.readError "/docs/missing.mdx") := by
    refine runIncl_cons_headErr cexEnvC8 (some "/docs/a.mdx") false _ [] _ ?_
    rw [show nodeA = MNode.node "mdxJsxFlowElement" (some (some "include"))
      none none none [inclM] from rfl]
    rw [headStep_includeDescend cexEnvC8 (some "/docs/a.mdx") false none none
      none [inclM] (fun c hc2 => by cases hc2; decide), hinner]
  refine ⟨by decide, hA, ?_⟩
  have hroot : runIncl cexEnvC8 (some "/docs/a.mdx") false
      [rootNode ⟨[nodeA], none⟩] =
      .error (.readError "/docs/missing.mdx") := by
    refine runIncl_cons_headErr cexEnvC8 (some "/docs/a.mdx") false _ [] _ ?_
    rw [show rootNode ⟨[nodeA], none⟩ =
      MNode.node "root" none none none none [nodeA] from rfl]
    rw [headStep_other cexEnvC8 (some "/docs/a.mdx") false "root" none none
      none none [nodeA] (by decide), hA]
  have hres : buildMDX cexEnvC8 true "g" "h" "s"
      ⟨none, some "/docs/a.mdx", false⟩ ⟨[], 0⟩ =
      (processDoc cexEnvC8 0 "s" (some "/docs/a.mdx") false,
        ⟨[("g:mdx", ⟨0, "h"⟩)], 1⟩) := rfl
  rw [hres]
  show processDoc cexEnvC8 0 "s" (some "/docs/a.mdx") false = _
  rw [processDoc_err cexEnvC8 0 "s" (some "/docs/a.mdx") false ⟨[nodeA], none⟩
    (.readError "/docs/missing.mdx") rfl hroot]

/-- C8 as amended: an include directive whose first child is missing or
not a text node is never itself resolved — its own fields are kept and
the walk simply descends into its children (the visitor early-returns
`undefined`); consequently it is left fully unchanged, with no error and
no dependency reports, exactly when transforming its children is a
no-op. Descendant includes may still resolve (mutating the subtree) or
fail (rejecting the build, see the counterexample). -/
theorem remarkInclude_nontext_child_descends :
    (∀ (env : PipelineEnv) (base : Option String) (hc : Bool) v a p cs rest,
      (∀ c, cs.head? = some c → c.typ ≠ "text") →
      runIncl env base hc
          (MNode.node "mdxJsxFlowElement" (some (some "include")) v a p cs :: rest) =
        match runIncl env base hc cs with
        | .error e => .error e
        | .ok (cs', d1) =>
          match runIncl env base hc rest with
          | .error e => .error e
          | .ok (rest', d2) =>
            .ok (MNode.node "mdxJsxFlowElement" (some (some "include")) v a p cs' ::
              rest', d1 ++ d2)) ∧
    (∀ (env : PipelineEnv) (base : Option String) (hc : Bool) v a p cs rest rest' d2,
      (∀ c, cs.head? = some c → c.typ ≠ "text") →
      runIncl env base hc cs = .ok (cs, []) →
      runIncl env base hc rest = .ok (rest', d2) →
      runIncl env base hc
          (MNode.node "mdxJsxFlowElement" (some (some "include")) v a p cs :: rest) =
        .ok (MNode.node "mdxJsxFlowElement" (some (some "include")) v a p cs ::
          rest', d2)) := by
  have hfst : ∀ (env : PipelineEnv) (base : Option String) (hc : Bool) v a p cs rest,
      (∀ c, cs.head? = some c → c.typ ≠ "text") →
      runIncl env base hc
          (MNode.node "mdxJsxFlowElement" (some (some "include")) v a p cs :: rest) =
        match runIncl env base hc cs with
        | .error e => .error e
        | .ok (cs', d1) =>
          match runIncl env base hc rest with
          | .error e => .error e
          | .ok (rest', d2) =>
            .ok (MNode.node "mdxJsxFlowElement" (some (some "include")) v a p cs' ::
              rest', d1 ++ d2) := by
    intro env base hc v a p cs rest hch
    rw [runIncl_cons, headStep_includeDescend env base hc v a p cs hch]
    cases runIncl env base hc cs with
    | error e => rfl
    | ok pr => obtain ⟨cs', d1⟩ := pr; rfl
  refine ⟨hfst, ?_⟩
  intro env base hc v a p cs rest rest' d2 hch hcs hrest
  rw [hfst env base hc v a p cs rest hch, hcs, hrest]
  rfl

/-- A childless non-include JSX element. -/
def tabN : MNode :=
  .node "mdxJsxFlowElement" (some (some "Tab")) none none none []

/-- An include directive whose first child is `tabN` (not a text node)
and whose subtree triggers no resolution. -/
def nodeA2 : MNode :=
  .node "mdxJsxFlowElement" (some (some "include")) none none none [tabN]

/-- Witness for the amended C8 at concrete inputs: an include whose first
child is a childless JSX element is left fully unchanged — no error, no
resolution, no dependency reports. -/
theorem remarkInclude_nontext_child_descends_witness :
    runIncl cexEnvB (some "/docs/a.mdx") true [nodeA2] =
      .ok ([nodeA2], []) := by
  have hcs : runIncl cexEnvB (some "/docs/a.mdx") true [tabN] =
      .ok ([tabN], []) := by
    rw [show tabN = MNode.node "mdxJsxFlowElement" (some (some "Tab")) none
      none none [] from rfl]
    rw [runIncl_cons_of_parts cexEnvB (some "/docs/a.mdx") true _ _ [] [] [] []
      (headStep_skip cexEnvB (some "/docs/a.mdx") true (some (some "Tab")) none
        none none [] (by decide))
      (runIncl_nil cexEnvB (some "/docs/a.mdx") true)]
    rfl
  rw [show nodeA2 = MNode.node "mdxJsxFlowElement" (some (some "include")) none
    none none [tabN] from rfl]
  rw [remarkInclude_nontext_child_descends.2 cexEnvB (some "/docs/a.mdx") true
    none none none [tabN] [] [] [] (fun c hc2 => by cases hc2; decide) hcs
    (runIncl_nil cexEnvB (some "/docs/a.mdx") true)]

/-- C10 as amended: when the host document has no path, a document whose
walk reaches at least one resolvable include directive rejects with the
`path.dirname(undefined)` type error, for every filesystem — the
rejection does not depend on any file read; a document whose walk
reaches none (even if resolvable includes hide inside other JSX
elements) succeeds untouched; at the build level the rejection surfaces
as the promise's transform error. -/
theorem remarkInclude_no_path_rejects :
    (∀ (env : PipelineEnv) (hc : Bool) l, visitedSpecs l ≠ [] →
      runIncl env none hc l = .error .noPath) ∧
    (∀ (env : PipelineEnv) (hc : Bool) l, visitedSpecs l = [] →
      runIncl env none hc l = .ok (l, [])) ∧
    (∀ (env : PipelineEnv) g h src (o : MDXOpts) st r, o.filePath = none →
      env.parse src = .ok r → visitedSpecs [rootNode r] ≠ [] →
      (buildMDX env true g h src o st).1 = .error (.transformError .noPath)) := by
  refine ⟨fun env hc l hne => (runIncl_none_base env hc l).2 hne,
    fun env hc l hemp => (runIncl_none_base env hc l).1 hemp, ?_⟩
  intro env g h src o st r hfp hparse hne
  obtain ⟨p, st', hb⟩ := buildProcessor_true_ok (mdxKey g o) h st
  unfold buildMDX
  rw [hb]
  show processDoc env p src o.filePath o.hasCompiler = _
  rw [processDoc_err env p src o.filePath o.hasCompiler r .noPath hparse
    (by rw [hfp]; exact (runIncl_none_base env o.hasCompiler [rootNode r]).2 hne)]

/-- A concrete environment whose parser yields a document consisting of
`wrapB` (an include nested inside another JSX element) and whose
filesystem would serve every read. -/
def cexEnvC10 : PipelineEnv :=
  ⟨fun _ => .ok ⟨[wrapB], none⟩, id, fun _ => some "Hello"⟩

/-- Counterexample to C10 as stated: this document parses to a tree
containing an include directive with a plain-text first child — but
nested inside another JSX element — and although no `filePath` is
supplied, the build does not reject: the walk never reaches the
directive, so no resolution is attempted and the promise resolves with
the tree unchanged. -/
theorem buildMDX_no_path_nested_include_cex :
    (buildMDX cexEnvC10 true "g" "h" "s" {} ⟨[], 0⟩).1 =
      .ok ⟨0, MNode.node "root" none none none none [wrapB], []⟩ := by
  have hwrap : runIncl cexEnvC10 none false [wrapB] = .ok ([wrapB], []) := by
    rw [show wrapB = MNode.node "mdxJsxFlowElement" (some (some "Tab")) none
      none none [inclB] from rfl]
    rw [runIncl_cons_of_parts cexEnvC10 none false _ _ [] [] [] []
      (headStep_skip cexEnvC10 none false (some (some "Tab")) none none none
        [inclB] (by decide))
      (runIncl_nil cexEnvC10 none false)]
    rfl
  have hroot : runIncl cexEnvC10 none false [rootNode ⟨[wrapB], none⟩] =
      .ok ([MNode.node "root" none none none none [wrapB]], []) := by
    have hhs : headStep cexEnvC10 none false (rootNode ⟨[wrapB], none⟩) =
        .ok (MNode.node "root" none none none none [wrapB], []) := by
      rw [show rootNode ⟨[wrapB], none⟩ =
        MNode.node "root" none none none none [wrapB] from rfl]
      rw [headStep_other cexEnvC10 none false "root" none none none none
        [wrapB] (by decide), hwrap]
    rw [runIncl_cons_of_parts cexEnvC10 none false _ _ [] [] [] [] hhs
      (runIncl_nil cexEnvC10 none false)]
    rfl
  have hres : buildMDX cexEnvC10 true "g" "h" "s" {} ⟨[], 0⟩ =
      (processDoc cexEnvC10 0 "s" none false, ⟨[("g:mdx", ⟨0, "h"⟩)], 1⟩) := rfl
  rw [hres]
  show processDoc cexEnvC10 0 "s" none false = _
  rw [processDoc_ok cexEnvC10 0 "s" none false ⟨[wrapB], none⟩
    [MNode.node "root" none none none none [wrapB]] [] rfl hroot]
  rfl

/-- Witness for the amended C10 at concrete inputs: a top-level
resolvable include with no host path rejects with the anchoring error
even though this environment cannot read any file (no read happens). -/
theorem remarkInclude_no_path_rejects_witness :
    runIncl cexEnv0 none true [inclB] = .error .noPath := by
  have hvs : visitedSpecs [inclB] = ["b.mdx"] := by
    rw [show inclB = MNode.node "mdxJsxFlowElement" (some (some "include")) none
      (some 1) (some 2) [textNode "b.mdx"] from rfl]
    rw [visitedSpecs_cons_resolve none (some 1) (some 2) [textNode "b.mdx"] []
      (textNode "b.mdx") rfl rfl, visitedSpecs_nil]
    rfl
  exact remarkInclude_no_path_rejects.1 cexEnv0 true [inclB]
    (by rw [hvs]; decide)

end FumaMDX
